import Mathlib

/-!
Verification development for the game-theoretic solver of the GeoPolitik
repository, file python-services/services/gambit_service.py.  The Python
functions are shallowly embedded as Lean definitions over exact rational
arithmetic.  Python dictionaries keyed by coalition strings are modelled as
total functions from String to the rationals returning 0 on absent keys,
matching the pervasive use of coalition_values.get(key, 0) in the source.
Allocations (Python dicts keyed by the player names) are modelled as total
functions from String to the rationals as well.
-/

/-- Lexicographic comparison of two lists of characters by Unicode code
point, the order Python uses to compare strings.  Returns true when the
first list is less than or equal to the second. -/
def charListLe : List Char → List Char → Bool
  | [], _ => true
  | _ :: _, [] => false
  | a :: as, b :: bs =>
    if a.toNat = b.toNat then charListLe as bs
    else decide (a.toNat < b.toNat)

/-- Order on strings given by `charListLe` on the underlying character
lists: the order Python applies when `sorted` is called on strings. -/
def pyStrLe (a b : String) : Prop :=
  charListLe a.data b.data = true

instance : DecidableRel pyStrLe :=
  fun a b => inferInstanceAs (Decidable (charListLe a.data b.data = true))

/-- Embedding of Python sorted() on a list of strings: sorting in the
ascending code-point lexicographic order. -/
def pySorted (l : List String) : List String :=
  l.insertionSort pyStrLe

/-- Embedding of the coalition-key construction used throughout the
cooperative solver (lines 233, 234, 260 and 275 of gambit_service.py):
a left brace, the sorted player names joined by commas, and a right
brace. -/
def coalitionKey (c : List String) : String :=
  "\x7b" ++ String.intercalate "," (pySorted c) ++ "\x7d"

/-- Embedding of the singleton-coalition key built at line 269 of
gambit_service.py: a left brace, the player name, a right brace. -/
def singletonKey (p : String) : String :=
  "\x7b" ++ p ++ "\x7d"

/-! ### Normal-form Nash solver

The repository calls the third-party nashpy library (`nash.Game`,
`support_enumeration`, lines 54 to 57); that library is not part of this
repository.  Its behaviour is modelled from the spec. -/

/-- Mixed strategy over `n` pure strategies: componentwise non-negative
rationals summing to one. -/
def IsMixed {n : ℕ} (x : Fin n → ℚ) : Prop :=
  (∀ i, 0 ≤ x i) ∧ (∑ i, x i) = 1

/-- Modelled from the spec: expected payoff of player 1 under the
shared-matrix convention of spec sections 4.1 and 8 — at the pure profile
`(i, j)` player 1 receives `A i j`. -/
def expPayoff1 {n : ℕ} (A : Fin n → Fin n → ℚ) (x y : Fin n → ℚ) : ℚ :=
  ∑ i, ∑ j, x i * y j * A i j

/-- Modelled from the spec: expected payoff of player 2 under the
shared-matrix convention — both players share the payoff structure, so at
the pure profile `(i, j)` player 2 receives `A j i` (the matrix read from
the perspective of player 2).  This is the only reading under which the
Prisoners Dilemma scenario of spec section 8 yields payoff vector
`[1,1]`. -/
def expPayoff2 {n : ℕ} (A : Fin n → Fin n → ℚ) (x y : Fin n → ℚ) : ℚ :=
  ∑ i, ∑ j, x i * y j * A j i

/-- Nash equilibrium of the shared-matrix game: both strategies are mixed
strategies and neither player can improve by a unilateral deviation. -/
def IsNashEquilibrium {n : ℕ} (A : Fin n → Fin n → ℚ) (x y : Fin n → ℚ) : Prop :=
  IsMixed x ∧ IsMixed y
    ∧ (∀ x', IsMixed x' → expPayoff1 A x' y ≤ expPayoff1 A x y)
    ∧ (∀ y', IsMixed y' → expPayoff2 A x y' ≤ expPayoff2 A x y)

/-- Modelled from the spec: the nashpy support-enumeration call
(line 57 of gambit_service.py) is not part of this repository.  Spec
section 4.1 describes it as the standard algorithm for complete and exact
equilibrium enumeration in finite 2-player games — candidates drawn from
all support pairs, accepted exactly when the probabilities are
non-negative, sum to one and no pure strategy outside the support does
strictly better — so the collection of returned equilibria is modelled as
the set of all mixed Nash equilibria of the game. -/
def supportEnumerationEquilibria (n : ℕ) (A : Fin n → Fin n → ℚ) :
    Set ((Fin n → ℚ) × (Fin n → ℚ)) :=
  { p | IsNashEquilibrium A p.1 p.2 }

/-- Result value of a Python call as seen by an `await` expression: a
coroutine object (produced by calling an `async def` function) or a plain
value (produced by calling an ordinary `def` function). -/
inductive PyCallResult (α : Type) where
  | coroutine (val : α)
  | plainValue (val : α)

/-- Semantics of the Python `await` expression: awaiting a coroutine
yields its value; awaiting a plain value raises TypeError. -/
def awaitValue {α : Type} : PyCallResult α → Except String α
  | .coroutine v => .ok v
  | .plainValue _ => .error "TypeError: object dict is not awaitable"

/-- Dict returned by `_handle_cooperative_game` (lines 309 to 316 of
gambit_service.py): empty shapley values, empty core solutions, empty
nucleolus, game_type cooperative. -/
structure CoopHandlerDict where
  shapley_values : List (String × ℚ)
  core_solutions : List (List (String × ℚ))
  nucleolus : List (String × ℚ)
  game_type : String

/-- Embedding of `_handle_cooperative_game`: an ordinary (non-async)
function returning a stub dict. -/
def handleCooperativeGame : CoopHandlerDict :=
  ⟨[], [], [], "cooperative"⟩

/-- Dict returned by `_handle_extensive_form` (lines 318 to 324 of
gambit_service.py): empty equilibria, empty game tree, game_type
extensive_form.  The empty game-tree dict is modelled as an empty
association list. -/
structure ExtHandlerDict where
  equilibria : List (List (String × ℚ))
  game_tree : List (String × String)
  game_type : String

/-- Embedding of `_handle_extensive_form`: an ordinary (non-async)
function returning a stub dict. -/
def handleExtensiveForm : ExtHandlerDict :=
  ⟨[], [], "extensive_form"⟩

/-- Data part of a successful compute_nash response, depending on the
branch taken in `compute_nash_equilibrium`. -/
inductive NashData (n : ℕ) where
  | normalForm (equilibria : Set ((Fin n → ℚ) × (Fin n → ℚ)))
  | cooperativeData (d : CoopHandlerDict)
  | extensiveData (d : ExtHandlerDict)

/-- Embedding of `compute_nash_equilibrium` (lines 41 to 98 of
gambit_service.py) for a square matrix of size `n`.  The normal_form
branch runs support enumeration (spec-modelled, see
`supportEnumerationEquilibria`).  The cooperative branch evaluates
`await _handle_cooperative_game(request)` and the remaining branch
evaluates `await _handle_extensive_form(request)`; both callees are
ordinary functions, so their results are plain values, not coroutines.
Any exception is caught at lines 96 to 98 and re-raised as an
HTTPException with status code 500, modelled as `Except.error 500`. -/
def computeNashRun (n : ℕ) (A : Fin n → Fin n → ℚ) (gameType : String) :
    Except Nat (NashData n) :=
  if gameType = "normal_form" then
    .ok (.normalForm (supportEnumerationEquilibria n A))
  else if gameType = "cooperative" then
    match awaitValue (PyCallResult.plainValue handleCooperativeGame) with
    | .ok d => .ok (.cooperativeData d)
    | .error _ => .error 500
  else
    match awaitValue (PyCallResult.plainValue handleExtensiveForm) with
    | .ok d => .ok (.extensiveData d)
    | .error _ => .error 500

/-! ### Cooperative solver -/

/-- Names visible in the body of `_calculate_shapley_values`: the
module-level bindings of gambit_service.py (the imports at lines 1 to 16
and the definitions of the module) together with the local import of
itertools at line 226.  The name math does not occur: the module never
imports math, the function imports only itertools, and math is not a
Python builtin. -/
def shapleyVisibleNames : List String :=
  ["APIRouter", "HTTPException", "BackgroundTasks", "BaseModel", "Field",
   "List", "Dict", "Any", "Optional", "logging", "np", "json", "Path",
   "sys", "os", "gambit", "nash", "logger", "router",
   "NashEquilibriumRequest", "CooperativeGameRequest",
   "ExtensiveFormRequest", "ComputationResponse",
   "compute_nash_equilibrium", "solve_cooperative_game",
   "build_extensive_form_game", "get_capabilities",
   "_calculate_shapley_values", "_find_core_solutions",
   "_calculate_nucleolus", "_build_game_tree", "_handle_cooperative_game",
   "_handle_extensive_form", "itertools"]

/-- Mathematical content of the loop body of `_calculate_shapley_values`
(lines 224 to 241 of gambit_service.py), with the unbound name
math.factorial read as the factorial function: for a player `p`, iterate
over all permutations of the full player list; for each permutation take
the value of the coalition key of the whole permutation (which is always
the grand coalition, since the key sorts the names) minus the value of the
key of the permutation with `p` removed, divide by
`n * factorial (n - 1)`, and sum.  Missing keys default to 0 via
coalition_values.get. -/
def shapleyValuesCode (players : List String) (cv : String → ℚ) (p : String) : ℚ :=
  (players.permutations'.map (fun coalition =>
      (cv (coalitionKey coalition)
          - cv (coalitionKey (coalition.filter (fun q => q ≠ p))))
        / ((players.length : ℚ) * ((players.length - 1).factorial : ℚ)))).sum

/-- Message of the NameError raised when the body of
`_calculate_shapley_values` evaluates `math.factorial`. -/
def nameErrorMsg : String :=
  "NameError: name math is not defined"

/-- Run semantics of `_calculate_shapley_values`: for an empty player
list the loops never execute and the initial empty dict is returned; for
a non-empty player list the first inner-loop iteration evaluates
`math.factorial`, and since math is not among the visible names this
raises a NameError before any value is returned.  Were math bound, the
result would be `shapleyValuesCode`. -/
def calculateShapleyValuesRun (players : List String) (cv : String → ℚ) :
    Except String (String → ℚ) :=
  if players.isEmpty then .ok (fun _ => 0)
  else if "math" ∈ shapleyVisibleNames then .ok (shapleyValuesCode players cv)
  else .error nameErrorMsg

/-- Coalitions enumerated by the loop at lines 272 to 280 of
gambit_service.py: `combinations(players, r)` for `r` from 2 to `n - 1`,
that is, all sublists of the player list of length at least 2 and
strictly less than the number of players. -/
def properCoalitions (players : List String) : List (List String) :=
  players.sublists.filter
    (fun c => decide (2 ≤ c.length ∧ c.length < players.length))

/-- Feasible set of the linear program assembled by
`_find_core_solutions` (lines 243 to 283 of gambit_service.py).  scipy
linprog is called with `A_ub x ≤ b_ub`, `A_eq x = b_eq` and bounds
`(0, None)`, so the constraints are: the shares sum to the value of the
grand-coalition key (equality, lines 260 to 262); for every player,
`x p ≤ v(singleton of p)` (lines 265 to 269 — note the direction of the
inequality, which is what the code submits); for every enumerated
coalition, the sum of its members shares is `≤` the coalition value
(lines 272 to 280); and every share is non-negative (line 283). -/
def linprogFeasible (players : List String) (cv : String → ℚ) (x : String → ℚ) : Prop :=
  ((players.map x).sum = cv (coalitionKey players))
    ∧ (∀ p ∈ players, x p ≤ cv (singletonKey p))
    ∧ (∀ c ∈ properCoalitions players, (c.map x).sum ≤ cv (coalitionKey c))
    ∧ (∀ p ∈ players, 0 ≤ x p)

/-- Return relation of `_find_core_solutions` (lines 282 to 290): with a
zero objective vector the linear program succeeds exactly when its
constraint system is feasible, in which case the solver returns some
feasible point and the function returns it as a one-element list;
otherwise (`result.success` false, or an exception) the function returns
the empty list.  Which feasible point scipy selects is not determined by
the source, so the result is a relation rather than a function. -/
def findCoreReturns (players : List String) (cv : String → ℚ)
    (result : List (String → ℚ)) : Prop :=
  (∃ x, linprogFeasible players cv x ∧ result = [x])
    ∨ ((¬ ∃ x, linprogFeasible players cv x) ∧ result = [])

/-- Return relation of `_calculate_nucleolus` (lines 292 to 302): call
`_find_core_solutions`; if the returned list is non-empty return its
first element, otherwise return the dict assigning 0.0 to every
player. -/
def calculateNucleolusReturns (players : List String) (cv : String → ℚ)
    (y : String → ℚ) : Prop :=
  ∃ result, findCoreReturns players cv result ∧
    y = (match result with
         | [] => fun _ => 0
         | a :: _ => a)

/-- Data of a successful solve_cooperative response (lines 119 to 126 of
gambit_service.py), restricted to the three computed fields. -/
structure CoopResults where
  shapley_values : String → ℚ
  core_solutions : List (String → ℚ)
  nucleolus : String → ℚ

/-- Return relation of the `solve_cooperative_game` endpoint (lines 100
to 143): it first calls `_calculate_shapley_values`; if that raises, the
handler catches the exception at lines 141 to 143 and raises an
HTTPException with status 500 (`Except.error 500`).  Otherwise it calls
`_find_core_solutions` and `_calculate_nucleolus` and returns all three
results. -/
def solveCooperativeReturns (players : List String) (cv : String → ℚ)
    (r : Except Nat CoopResults) : Prop :=
  (∃ e, calculateShapleyValuesRun players cv = .error e ∧ r = .error 500)
    ∨ (∃ sv core nuc,
        calculateShapleyValuesRun players cv = .ok sv
          ∧ findCoreReturns players cv core
          ∧ calculateNucleolusReturns players cv nuc
          ∧ r = .ok ⟨sv, core, nuc⟩)

/-- Core conditions exactly as the spec and claim C2 state them, written
from the spec wording (not from the source) for comparison with
`linprogFeasible`: the shares sum to the grand-coalition value, each
player receives at least the singleton-coalition value, and every
non-empty coalition of players receives in total at least its coalition
value. -/
def specCoreAllocation (players : List String) (cv : String → ℚ)
    (x : String → ℚ) : Prop :=
  ((players.map x).sum = cv (coalitionKey players))
    ∧ (∀ p ∈ players, cv (singletonKey p) ≤ x p)
    ∧ (∀ c ∈ players.sublists, c ≠ [] → cv (coalitionKey c) ≤ (c.map x).sum)

/-! ### Concrete games used in the claims -/

/-- The Prisoners Dilemma payoff matrix [[3,0],[5,1]] of spec section 8. -/
def pdMatrix : Fin 2 → Fin 2 → ℚ := fun i j =>
  if i = 0 then (if j = 0 then 3 else 0) else (if j = 0 then 5 else 1)

/-- The pure strategy playing the second action (Defect) with
probability 1. -/
def defectStrategy : Fin 2 → ℚ := fun i => if i = 1 then 1 else 0

/-- Players of the two-player cooperative game used for claim C2. -/
def exC2players : List String := ["A", "B"]

/-- Coalition values of the game used for claim C2: both singletons are
worth 5 and the grand coalition is worth 6 (so the true core is empty,
while the linear program assembled by the code is feasible). -/
def exC2cv : String → ℚ := fun k =>
  if k = "\x7bA\x7d" then 5
  else if k = "\x7bB\x7d" then 5
  else if k = "\x7bA,B\x7d" then 6 else 0

/-- Coalition values of the game used for claim C3: singletons worth 0,
grand coalition of A and B worth 10. -/
def exC3cv : String → ℚ := fun k =>
  if k = "\x7bA,B\x7d" then 10 else 0

/-- Players of the classic 3-player empty-core game of claim C4. -/
def ex4players : List String := ["A", "B", "C"]

/-- Coalition values of the claim C4 game: every pair worth 90, the grand
coalition worth 100, singletons worth 0. -/
def ex4cv : String → ℚ := fun k =>
  if k = "\x7bA,B,C\x7d" then 100
  else if k = "\x7bA,B\x7d" then 90
  else if k = "\x7bA,C\x7d" then 90
  else if k = "\x7bB,C\x7d" then 90 else 0

/-- Coalition-value function that is 0 everywhere, used as a minimal
concrete input. -/
def cvZero : String → ℚ := fun _ => 0

/-! ### Properties of the string order and of sorting -/

theorem charListLe_nil_left (y : List Char) : charListLe [] y = true := rfl

theorem charListLe_cons_nil (a : Char) (as : List Char) :
    charListLe (a :: as) [] = false := rfl

theorem charListLe_cons (a b : Char) (as bs : List Char) :
    charListLe (a :: as) (b :: bs)
      = if a.toNat = b.toNat then charListLe as bs
        else decide (a.toNat < b.toNat) := rfl

theorem charListLe_total (x y : List Char) :
    charListLe x y = true ∨ charListLe y x = true := by
  induction x generalizing y with
  | nil => left; rfl
  | cons a as ih =>
    cases y with
    | nil => right; rfl
    | cons b bs =>
      by_cases h : a.toNat = b.toNat
      · rw [charListLe_cons, if_pos h, charListLe_cons, if_pos h.symm]
        exact ih bs
      · have h' : ¬ b.toNat = a.toNat := fun hh => h hh.symm
        rcases lt_or_gt_of_ne h with hlt | hgt
        · left
          rw [charListLe_cons, if_neg h, decide_eq_true_eq]
          exact hlt
        · right
          rw [charListLe_cons, if_neg h', decide_eq_true_eq]
          exact hgt

theorem charListLe_trans (x y z : List Char) (h1 : charListLe x y = true)
    (h2 : charListLe y z = true) : charListLe x z = true := by
  induction x generalizing y z with
  | nil => rfl
  | cons a as ih =>
    cases y with
    | nil => rw [charListLe_cons_nil] at h1; exact absurd h1 (by simp)
    | cons b bs =>
      cases z with
      | nil => rw [charListLe_cons_nil] at h2; exact absurd h2 (by simp)
      | cons c cs =>
        rw [charListLe_cons] at h1 h2 ⊢
        by_cases hab : a.toNat = b.toNat <;> by_cases hbc : b.toNat = c.toNat
        · rw [if_pos hab] at h1
          rw [if_pos hbc] at h2
          rw [if_pos (hab.trans hbc)]
          exact ih bs cs h1 h2
        · rw [if_pos hab] at h1
          rw [if_neg hbc, decide_eq_true_eq] at h2
          have hac : ¬ a.toNat = c.toNat := by omega
          rw [if_neg hac, decide_eq_true_eq]
          omega
        · rw [if_neg hab, decide_eq_true_eq] at h1
          rw [if_pos hbc] at h2
          have hac : ¬ a.toNat = c.toNat := by omega
          rw [if_neg hac, decide_eq_true_eq]
          omega
        · rw [if_neg hab, decide_eq_true_eq] at h1
          rw [if_neg hbc, decide_eq_true_eq] at h2
          have hac : ¬ a.toNat = c.toNat := by omega
          rw [if_neg hac, decide_eq_true_eq]
          omega

theorem charListLe_antisymm (x y : List Char) (h1 : charListLe x y = true)
    (h2 : charListLe y x = true) : x = y := by
  induction x generalizing y with
  | nil =>
    cases y with
    | nil => rfl
    | cons b bs => rw [charListLe_cons_nil] at h2; exact absurd h2 (by simp)
  | cons a as ih =>
    cases y with
    | nil => rw [charListLe_cons_nil] at h1; exact absurd h1 (by simp)
    | cons b bs =>
      by_cases hab : a.toNat = b.toNat
      · have heq : a = b := Char.ext (UInt32.ext hab)
        subst heq
        rw [charListLe_cons, if_pos rfl] at h1 h2
        rw [ih bs h1 h2]
      · have hba : ¬ b.toNat = a.toNat := fun hh => hab hh.symm
        rw [charListLe_cons, if_neg hab, decide_eq_true_eq] at h1
        rw [charListLe_cons, if_neg hba, decide_eq_true_eq] at h2
        omega

instance : IsTotal String pyStrLe :=
  ⟨fun a b => charListLe_total a.data b.data⟩

instance : IsTrans String pyStrLe :=
  ⟨fun a b c h1 h2 => charListLe_trans a.data b.data c.data h1 h2⟩

instance : IsAntisymm String pyStrLe :=
  ⟨fun a b h1 h2 => by
    cases a with
    | mk da =>
      cases b with
      | mk db => exact congrArg String.mk (charListLe_antisymm da db h1 h2)⟩

/-- Sorting a list of strings depends only on the multiset of its
elements. -/
theorem pySorted_perm_eq {l1 l2 : List String} (h : l1.Perm l2) :
    pySorted l1 = pySorted l2 := by
  unfold pySorted
  exact List.eq_of_perm_of_sorted
    (((List.perm_insertionSort _ l1).trans h).trans
      (List.perm_insertionSort _ l2).symm)
    (List.sorted_insertionSort _ l1)
    (List.sorted_insertionSort _ l2)


/-- Claim C9: the coalition-key encoding (brace-delimited, comma-joined,
sorted player names) is order-independent — any two orderings of the same
set of player names produce the identical key string, so coalition-value
lookups do not depend on the order in which coalition members are
listed. -/
theorem coalitionKey_perm_invariant (l1 l2 : List String) (h : l1.Perm l2) :
    coalitionKey l1 = coalitionKey l2 := by
  unfold coalitionKey
  rw [pySorted_perm_eq h]

/-- Witness for claim C9 at a concrete pair of orderings of the same
two-player coalition. -/
theorem coalitionKey_perm_invariant_witness :
    (["B", "A"].Perm ["A", "B"])
      ∧ coalitionKey ["B", "A"] = coalitionKey ["A", "B"] :=
  ⟨by decide, coalitionKey_perm_invariant ["B", "A"] ["A", "B"] (by decide)⟩

/-! ### Evaluation lemmas for the Prisoners Dilemma matrix -/

theorem pdMatrix_00 : pdMatrix 0 0 = 3 := rfl

theorem pdMatrix_01 : pdMatrix 0 1 = 0 := rfl

theorem pdMatrix_10 : pdMatrix 1 0 = 5 := rfl

theorem pdMatrix_11 : pdMatrix 1 1 = 1 := rfl

theorem defectStrategy_0 : defectStrategy 0 = 0 := rfl

theorem defectStrategy_1 : defectStrategy 1 = 1 := rfl

theorem defectStrategy_mixed : IsMixed defectStrategy := by
  constructor
  · intro i
    fin_cases i
    · show (0 : ℚ) ≤ defectStrategy 0
      rw [defectStrategy_0]
    · show (0 : ℚ) ≤ defectStrategy 1
      rw [defectStrategy_1]
      norm_num
  · rw [Fin.sum_univ_two, defectStrategy_0, defectStrategy_1]
    norm_num

/-- Claim C1: for the payoff matrix [[3,0],[5,1]] the Nash solver of the
normal_form branch (spec-modelled support enumeration over the
shared-matrix game) returns exactly one equilibrium, in which each player
plays the second pure strategy (Defect) with probability 1, and the
payoff vector at this equilibrium is [1,1]. -/
theorem pd_unique_defect_equilibrium :
    supportEnumerationEquilibria 2 pdMatrix = {(defectStrategy, defectStrategy)}
      ∧ expPayoff1 pdMatrix defectStrategy defectStrategy = 1
      ∧ expPayoff2 pdMatrix defectStrategy defectStrategy = 1 := by
  refine ⟨?_, ?_, ?_⟩
  · ext p
    obtain ⟨x, y⟩ := p
    simp only [supportEnumerationEquilibria, Set.mem_setOf_eq,
      Set.mem_singleton_iff, Prod.mk.injEq]
    constructor
    · rintro ⟨⟨hx0, hx1⟩, ⟨hy0, hy1⟩, hbr1, hbr2⟩
      rw [Fin.sum_univ_two] at hx1 hy1
      have h1 := hbr1 defectStrategy defectStrategy_mixed
      have h2 := hbr2 defectStrategy defectStrategy_mixed
      simp only [expPayoff1, expPayoff2, Fin.sum_univ_two, pdMatrix_00,
        pdMatrix_01, pdMatrix_10, pdMatrix_11, defectStrategy_0,
        defectStrategy_1, mul_zero, zero_mul, mul_one, one_mul, add_zero,
        zero_add] at h1 h2
      have hx1' : x 1 = 1 - x 0 := by linarith
      have hy1' : y 1 = 1 - y 0 := by linarith
      rw [hx1', hy1'] at h1 h2
      have hx00 : x 0 = 0 :=
        le_antisymm (by nlinarith [mul_nonneg (hx0 0) (hy0 0)]) (hx0 0)
      have hy00 : y 0 = 0 :=
        le_antisymm (by nlinarith [mul_nonneg (hx0 0) (hy0 0)]) (hy0 0)
      constructor
      · funext i
        fin_cases i
        · show x 0 = defectStrategy 0
          rw [defectStrategy_0]
          exact hx00
        · show x 1 = defectStrategy 1
          rw [defectStrategy_1, hx1', hx00]
          norm_num
      · funext j
        fin_cases j
        · show y 0 = defectStrategy 0
          rw [defectStrategy_0]
          exact hy00
        · show y 1 = defectStrategy 1
          rw [defectStrategy_1, hy1', hy00]
          norm_num
    · rintro ⟨rfl, rfl⟩
      refine ⟨defectStrategy_mixed, defectStrategy_mixed, ?_, ?_⟩
      · intro x' hx'
        obtain ⟨hx'0, hx'1⟩ := hx'
        rw [Fin.sum_univ_two] at hx'1
        simp only [expPayoff1, Fin.sum_univ_two, pdMatrix_00, pdMatrix_01,
          pdMatrix_10, pdMatrix_11, defectStrategy_0, defectStrategy_1,
          mul_zero, zero_mul, mul_one, one_mul, add_zero, zero_add]
        linarith [hx'0 0]
      · intro y' hy'
        obtain ⟨hy'0, hy'1⟩ := hy'
        rw [Fin.sum_univ_two] at hy'1
        simp only [expPayoff2, Fin.sum_univ_two, pdMatrix_00, pdMatrix_01,
          pdMatrix_10, pdMatrix_11, defectStrategy_0, defectStrategy_1,
          mul_zero, zero_mul, mul_one, one_mul, add_zero, zero_add]
        linarith [hy'0 0]
  · simp only [expPayoff1, Fin.sum_univ_two, pdMatrix_00, pdMatrix_01,
      pdMatrix_10, pdMatrix_11, defectStrategy_0, defectStrategy_1,
      mul_zero, zero_mul, mul_one, one_mul, add_zero, zero_add]
  · simp only [expPayoff2, Fin.sum_univ_two, pdMatrix_00, pdMatrix_01,
      pdMatrix_10, pdMatrix_11, defectStrategy_0, defectStrategy_1,
      mul_zero, zero_mul, mul_one, one_mul, add_zero, zero_add]

/-- Claim C7: for the empty payoff matrix (no strategies) the
normal_form branch of compute_nash returns an empty collection of
equilibria and does not raise: the support enumeration over an empty
strategy set finds nothing, because no probability distribution over zero
strategies exists. -/
theorem empty_matrix_returns_no_equilibria (A : Fin 0 → Fin 0 → ℚ) :
    supportEnumerationEquilibria 0 A = ∅
      ∧ computeNashRun 0 A "normal_form" = .ok (.normalForm ∅) := by
  have hempty : supportEnumerationEquilibria 0 A = ∅ := by
    ext p
    simp only [supportEnumerationEquilibria, Set.mem_setOf_eq,
      Set.mem_empty_iff_false, iff_false]
    rintro ⟨⟨_, hx1⟩, _⟩
    rw [Finset.univ_eq_empty, Finset.sum_empty] at hx1
    exact absurd hx1 (by norm_num)
  refine ⟨hempty, ?_⟩
  unfold computeNashRun
  rw [if_pos rfl, hempty]

/-- Claim C10: for every compute_nash request whose game_type is not
normal_form, the handler awaits the plain dict returned by
_handle_cooperative_game or _handle_extensive_form, which raises a
TypeError, so the call always results in an HTTP 500 error and these
branches never return a successful response. -/
theorem computeNash_non_normal_form_500 (n : ℕ) (A : Fin n → Fin n → ℚ)
    (gameType : String) (h : gameType ≠ "normal_form") :
    computeNashRun n A gameType = .error 500 := by
  unfold computeNashRun
  rw [if_neg h]
  by_cases h2 : gameType = "cooperative"
  · rw [if_pos h2]
    rfl
  · rw [if_neg h2]
    rfl

/-- Witness for claim C10 at the concrete game_type cooperative. -/
theorem computeNash_non_normal_form_500_witness :
    ("cooperative" ≠ "normal_form")
      ∧ computeNashRun 2 pdMatrix "cooperative" = .error 500 :=
  ⟨by decide, computeNash_non_normal_form_500 2 pdMatrix "cooperative" (by decide)⟩

/-- Claim C5: for every non-empty player list, _calculate_shapley_values
raises a NameError (math is unbound), so the solve_cooperative endpoint
always raises HTTP 500 and never returns Shapley values, core solutions
or a nucleolus. -/
theorem shapley_raises_name_error (players : List String) (cv : String → ℚ)
    (h : players ≠ []) :
    calculateShapleyValuesRun players cv = .error nameErrorMsg
      ∧ ∀ r, solveCooperativeReturns players cv r → r = .error 500 := by
  have hcalc : calculateShapleyValuesRun players cv = .error nameErrorMsg := by
    unfold calculateShapleyValuesRun
    rw [if_neg (by simpa using h), if_neg (by decide)]
  refine ⟨hcalc, ?_⟩
  intro r hr
  rcases hr with ⟨e, _, hr⟩ | ⟨sv, core, nuc, hok, _, _, _⟩
  · exact hr
  · rw [hcalc] at hok
    exact absurd hok (by simp)

/-- Witness for claim C5 at a concrete one-player request. -/
theorem shapley_raises_name_error_witness :
    ((["A"] : List String) ≠ [])
      ∧ (calculateShapleyValuesRun ["A"] cvZero = .error nameErrorMsg
          ∧ ∀ r, solveCooperativeReturns ["A"] cvZero r → r = .error 500) :=
  ⟨by decide, shapley_raises_name_error ["A"] cvZero (by decide)⟩

/-- Claim C8: _calculate_nucleolus returns the first allocation produced
by _find_core_solutions when that list is non-empty and otherwise the
all-zero allocation; equivalently, its possible outputs are exactly the
feasible points of the code-assembled linear program when one exists, and
the all-zero allocation when the program is infeasible. -/
theorem nucleolus_first_core_or_zero (players : List String)
    (cv : String → ℚ) (y : String → ℚ) :
    calculateNucleolusReturns players cv y
      ↔ (linprogFeasible players cv y
          ∨ ((¬ ∃ x, linprogFeasible players cv x) ∧ y = fun _ => 0)) := by
  constructor
  · rintro ⟨result, hret, hy⟩
    rcases hret with ⟨x, hx, rfl⟩ | ⟨hinf, rfl⟩
    · left
      subst hy
      exact hx
    · right
      exact ⟨hinf, hy⟩
  · rintro (hfeas | ⟨hinf, rfl⟩)
    · exact ⟨[y], Or.inl ⟨y, hfeas, rfl⟩, rfl⟩
    · exact ⟨[], Or.inr ⟨hinf, rfl⟩, rfl⟩

/-! ### Claim C2: direction of the core constraints -/

theorem exC2_code_lp_feasible :
    linprogFeasible exC2players exC2cv (fun _ => 3) := by
  refine ⟨?_, ?_, ?_, ?_⟩
  · have hk : exC2cv (coalitionKey exC2players) = 6 := by decide
    rw [hk]
    show (3 : ℚ) + (3 + 0) = 6
    norm_num
  · intro p hp
    have hmem : p = "A" ∨ p = "B" := by
      simpa [exC2players] using hp
    rcases hmem with rfl | rfl
    · have hk : exC2cv (singletonKey "A") = 5 := by decide
      rw [hk]
      norm_num
    · have hk : exC2cv (singletonKey "B") = 5 := by decide
      rw [hk]
      norm_num
  · intro c hc
    have hnone : properCoalitions exC2players = [] := by decide
    rw [hnone] at hc
    exact absurd hc (List.not_mem_nil c)
  · intro p _
    norm_num

/-- Claim C2 examined on the game with singleton values 5, 5 and grand
value 6: the linear program that _find_core_solutions submits to linprog
is feasible, so the function returns a (non-empty) singleton list of
allocations, yet no allocation it can return satisfies the core
conditions stated by the spec — the submitted inequalities are
`x p ≤ v(singleton)` and coalition sums `≤` coalition values, the reverse
of individual and coalition rationality. -/
theorem core_constraints_reversed :
    (∃ res, findCoreReturns exC2players exC2cv res ∧ res ≠ [])
      ∧ (∀ res x, findCoreReturns exC2players exC2cv res → x ∈ res →
          ¬ specCoreAllocation exC2players exC2cv x) := by
  constructor
  · exact ⟨[fun _ => 3], Or.inl ⟨fun _ => 3, exC2_code_lp_feasible, rfl⟩, by simp⟩
  · rintro res x hret hx hcore
    rcases hret with ⟨w, hw, rfl⟩ | ⟨_, rfl⟩
    · rcases List.mem_singleton.mp hx with rfl
      have heff := hw.1
      have hk6 : exC2cv (coalitionKey exC2players) = 6 := by decide
      rw [hk6] at heff
      have hA := hcore.2.1 "A" (by decide)
      have hB := hcore.2.1 "B" (by decide)
      have hk5A : exC2cv (singletonKey "A") = 5 := by decide
      have hk5B : exC2cv (singletonKey "B") = 5 := by decide
      rw [hk5A] at hA
      rw [hk5B] at hB
      have heff' : x "A" + (x "B" + 0) = 6 := heff
      linarith
    · exact absurd hx (List.not_mem_nil x)

/-! ### Claim C3: the Shapley computation is not efficient -/

/-- Claim C3 examined on the two-player game with grand value 10 and
singleton values 0: _calculate_shapley_values raises a NameError rather
than computing anything, and the formula its body spells out (with
math.factorial read as factorial) assigns 10 to each player, so the sum
of the computed values is 20, not the grand-coalition value 10, missing
the 1e-6 tolerance by ten million times. -/
theorem shapley_sum_not_grand_value :
    calculateShapleyValuesRun ["A", "B"] exC3cv = .error nameErrorMsg
      ∧ shapleyValuesCode ["A", "B"] exC3cv "A"
          + shapleyValuesCode ["A", "B"] exC3cv "B" = 20
      ∧ exC3cv (coalitionKey ["A", "B"]) = 10
      ∧ ¬ (|shapleyValuesCode ["A", "B"] exC3cv "A"
            + shapleyValuesCode ["A", "B"] exC3cv "B"
            - exC3cv (coalitionKey ["A", "B"])| ≤ 1 / 1000000) := by
  have hperm : (["A", "B"] : List String).permutations' = [["A", "B"], ["B", "A"]] := by
    decide
  have hkAB : coalitionKey ["A", "B"] = "\x7bA,B\x7d" := by decide
  have hkBA : coalitionKey ["B", "A"] = "\x7bA,B\x7d" := by decide
  have hfABnoA : coalitionKey ((["A", "B"] : List String).filter
      (fun q => decide (q ≠ "A"))) = "\x7bB\x7d" := by decide
  have hfBAnoA : coalitionKey ((["B", "A"] : List String).filter
      (fun q => decide (q ≠ "A"))) = "\x7bB\x7d" := by decide
  have hfABnoB : coalitionKey ((["A", "B"] : List String).filter
      (fun q => decide (q ≠ "B"))) = "\x7bA\x7d" := by decide
  have hfBAnoB : coalitionKey ((["B", "A"] : List String).filter
      (fun q => decide (q ≠ "B"))) = "\x7bA\x7d" := by decide
  have hvAB : exC3cv "\x7bA,B\x7d" = 10 := by decide
  have hvA : exC3cv "\x7bA\x7d" = 0 := by decide
  have hvB : exC3cv "\x7bB\x7d" = 0 := by decide
  have hsum : shapleyValuesCode ["A", "B"] exC3cv "A"
      + shapleyValuesCode ["A", "B"] exC3cv "B" = 20 := by
    simp only [shapleyValuesCode, hperm, List.map_cons, List.map_nil,
      List.sum_cons, List.sum_nil, hkAB, hkBA, hfABnoA, hfBAnoA, hfABnoB,
      hfBAnoB, hvAB, hvA, hvB, List.length_cons, List.length_nil]
    norm_num [Nat.factorial]
  have hval : exC3cv (coalitionKey ["A", "B"]) = 10 := by decide
  refine ⟨?_, hsum, hval, ?_⟩
  · unfold calculateShapleyValuesRun
    rw [if_neg (by decide), if_neg (by decide)]
  · rw [hsum, hval]
    norm_num

/-! ### Claim C4: behaviour on an empty core -/

theorem ex4_infeasible : ¬ ∃ x, linprogFeasible ex4players ex4cv x := by
  rintro ⟨x, heff, hsing, _, hpos⟩
  have hk : ex4cv (coalitionKey ex4players) = 100 := by decide
  rw [hk] at heff
  have hA := hsing "A" (by decide)
  have hB := hsing "B" (by decide)
  have hC := hsing "C" (by decide)
  have hkA : ex4cv (singletonKey "A") = 0 := by decide
  have hkB : ex4cv (singletonKey "B") = 0 := by decide
  have hkC : ex4cv (singletonKey "C") = 0 := by decide
  rw [hkA] at hA
  rw [hkB] at hB
  rw [hkC] at hC
  have hpA := hpos "A" (by decide)
  have hpB := hpos "B" (by decide)
  have hpC := hpos "C" (by decide)
  have heff' : x "A" + (x "B" + (x "C" + 0)) = 100 := heff
  linarith

/-- Claim C4 counterexample: on the classic empty-core 3-player game
(every pair worth 90, grand coalition worth 100, singletons 0) the linear
program of _find_core_solutions is infeasible, and the only possible
outputs are the silently returned empty list from _find_core_solutions
and the all-zero allocation from _calculate_nucleolus — no distinct
infeasibility outcome is produced, contrary to the claim. -/
theorem core_empty_silent_counterexample :
    (¬ ∃ x, linprogFeasible ex4players ex4cv x)
      ∧ {res | findCoreReturns ex4players ex4cv res}
          = {([] : List (String → ℚ))}
      ∧ {y | calculateNucleolusReturns ex4players ex4cv y}
          = {(fun _ => 0 : String → ℚ)} := by
  refine ⟨ex4_infeasible, ?_, ?_⟩
  · ext res
    simp only [Set.mem_setOf_eq, Set.mem_singleton_iff]
    constructor
    · rintro (⟨x, hx, rfl⟩ | ⟨_, rfl⟩)
      · exact absurd ⟨x, hx⟩ ex4_infeasible
      · rfl
    · rintro rfl
      exact Or.inr ⟨ex4_infeasible, rfl⟩
  · ext y
    simp only [Set.mem_setOf_eq, Set.mem_singleton_iff]
    constructor
    · rintro ⟨res, hres, hy⟩
      rcases hres with ⟨x, hx, rfl⟩ | ⟨_, rfl⟩
      · exact absurd ⟨x, hx⟩ ex4_infeasible
      · exact hy
    · rintro rfl
      exact ⟨[], Or.inr ⟨ex4_infeasible, rfl⟩, rfl⟩

/-- Claim C4 amended: whenever the linear program assembled by
_find_core_solutions is infeasible (the core-shaped constraint system has
no solution), _find_core_solutions returns exactly the empty list and
_calculate_nucleolus returns exactly the all-zero allocation; the
infeasibility is not reported as a distinct outcome. -/
theorem core_empty_silent_amended (players : List String) (cv : String → ℚ)
    (hinf : ¬ ∃ x, linprogFeasible players cv x) :
    (∀ res, findCoreReturns players cv res ↔ res = [])
      ∧ (∀ y, calculateNucleolusReturns players cv y ↔ y = fun _ => 0) := by
  constructor
  · intro res
    constructor
    · rintro (⟨x, hx, rfl⟩ | ⟨_, rfl⟩)
      · exact absurd ⟨x, hx⟩ hinf
      · rfl
    · rintro rfl
      exact Or.inr ⟨hinf, rfl⟩
  · intro y
    constructor
    · rintro ⟨res, hres, hy⟩
      rcases hres with ⟨x, hx, rfl⟩ | ⟨_, rfl⟩
      · exact absurd ⟨x, hx⟩ hinf
      · exact hy
    · rintro rfl
      exact ⟨[], Or.inr ⟨hinf, rfl⟩, rfl⟩

/-- Witness for the amended claim C4 at the concrete empty-core game. -/
theorem core_empty_silent_amended_witness :
    (¬ ∃ x, linprogFeasible ex4players ex4cv x)
      ∧ ((∀ res, findCoreReturns ex4players ex4cv res ↔ res = [])
          ∧ (∀ y, calculateNucleolusReturns ex4players ex4cv y
              ↔ y = fun _ => 0)) :=
  ⟨ex4_infeasible, core_empty_silent_amended ex4players ex4cv ex4_infeasible⟩
